import Mathlib

/-!
Shallow embedding of dgilland/flask-logconfig (src/flask_logconfig/__init__.py)
and proofs about its specified behaviour.

Conventions of the embedding:
* Python object identity is modelled with explicit numeric id fields
  (objId, lid, hid, queue) so that "the same object" and "a copy" are
  distinguishable values.
* The Flask request-context stack (flask._request_ctx_stack) is a
  List RequestCtx whose head is the top of the stack; an empty list means
  no request context is active (has_request_context returns False).
* Raising an exception is modelled by an Except / Option error result.
* datetime values are modelled as integer microsecond timestamps;
  timedelta decomposition uses floor division, matching Python.
-/

namespace FlaskLogConfig

/-- Python values appearing in the request-message data mapping built by
LogConfig.get_request_message_data. ratV carries the exact rational value of
the float execution time; its rendering is never relied upon by a theorem. -/
inductive PyVal where
  | noneV : PyVal
  | strV : String → PyVal
  | intV : Int → PyVal
  | ratV : ℚ → PyVal
  deriving DecidableEq

/-- Python str() of a data-mapping value, as used by str.format replacement
fields. Only noneV, strV and intV renderings are relied upon by theorems. -/
def pyToString : PyVal → String
  | .noneV => "None"
  | .strV s => s
  | .intV n => toString n
  | .ratV q => toString q

/-- The request attributes read by get_request_message_data, plus the raw
WSGI environ mapping (request.environ). -/
structure Request where
  method : String
  path : String
  base_url : String
  url : String
  remote_addr : String
  user_agent : String
  environ : List (String × PyVal)
  deriving DecidableEq

/-- The response attributes read by get_request_message_data. -/
structure Response where
  status_code : Int
  status : String
  deriving DecidableEq

/-- A Flask request context object (flask.ctx.RequestContext). objId models
Python object identity: RequestContext.copy() returns a distinct object
(fresh objId) wrapping the same request. -/
structure RequestCtx where
  objId : Nat
  request : Request
  deriving DecidableEq

/-- RequestContext.copy(): a new context object (fresh identity) for the same
request data. -/
def ctxCopy (c : RequestCtx) (freshId : Nat) : RequestCtx :=
  { c with objId := freshId }

/-- Base exception class of the package (class FlaskLogConfigException). -/
structure FlaskLogConfigException where
  msg : String
  deriving DecidableEq

/-- Python RuntimeError, raised by copy_current_request_context when no
request context is on the stack. -/
structure RuntimeError where
  msg : String
  deriving DecidableEq

/-- A log record travelling through the queue handler. request_context nones
models absence of the attribute (hasattr(record, ...) is false); prepared
records the effect of the base QueueHandler.prepare step. -/
structure Record where
  msg : String
  prepared : Bool
  request_context : Option RequestCtx
  deriving DecidableEq

/-- Base preparation step logconfig.QueueHandler.prepare of the external
logconfig library (renders the record for crossing the thread boundary),
modelled abstractly as marking the record prepared. -/
def basePrepare (r : Record) : Record :=
  { r with prepared := true }

/-- copy_current_request_context (lines 277 to 287 of the source): returns
top.copy() of the request context stack, raising RuntimeError when the stack
is empty. freshId supplies the identity of the newly created copy. -/
def copy_current_request_context (stack : List RequestCtx) (freshId : Nat) :
    Except RuntimeError RequestCtx :=
  match stack with
  | [] => .error { msg := "This function can only be used at local scopes when a request context is on the stack. For instance within view functions." }
  | top :: _ => .ok (ctxCopy top freshId)

/-- FlaskQueueHandler.prepare (lines 48 to 54): applies the base prepare step,
then unconditionally attaches copy_current_request_context() to the record.
When the stack is empty the attachment raises, so the whole step errors. -/
def FlaskQueueHandler_prepare (stack : List RequestCtx) (freshId : Nat)
    (record : Record) : Except RuntimeError Record :=
  let record := basePrepare record
  match copy_current_request_context stack freshId with
  | .error e => .error e
  | .ok ctx => .ok { record with request_context := some ctx }

/-- The snapshot attached to an optional record: some snapshot exactly when
hasattr(record, request_context attribute) holds in the source. -/
def attachedSnapshot (record : Option Record) : Option RequestCtx :=
  record.bind Record.request_context

/-- has_request_context() of Flask: true when the context stack is nonempty. -/
def has_request_context (stack : List RequestCtx) : Bool :=
  !stack.isEmpty

/-- request_context_from_record (lines 290 to 305): yields the snapshot
attached to the record if present (entering it yields the context object
itself), else the live top of the request context stack, else raises
FlaskLogConfigException. -/
def request_context_from_record (record : Option Record)
    (stack : List RequestCtx) : Except FlaskLogConfigException RequestCtx :=
  match attachedSnapshot record with
  | some snap => .ok snap
  | none =>
    match stack with
    | top :: _ => .ok top
    | [] => .error { msg := "No request context found on log record" }

end FlaskLogConfig

namespace FlaskLogConfig

/-- Concrete record without an attached snapshot, used in witnesses. -/
def recordNoCtx : Record :=
  { msg := "bar", prepared := false, request_context := none }

/-- Concrete request context used in witnesses. -/
def ctx0 : RequestCtx :=
  { objId := 0,
    request := { method := "GET", path := "/foo", base_url := "http://localhost/foo",
                 url := "http://localhost/foo", remote_addr := "127.0.0.1",
                 user_agent := "werkzeug", environ := [] } }

/-- C1: request_context_from_record resolves, in order: (1) the snapshot
attached to the record, (2) the ambient top-of-stack context, and otherwise
(3) raises the typed FlaskLogConfigException with the documented message. -/
theorem request_context_from_record_resolution (record : Option Record)
    (stack : List RequestCtx) :
    (∀ r snap, record = some r → r.request_context = some snap →
      request_context_from_record record stack = Except.ok snap) ∧
    (∀ top rest, attachedSnapshot record = none → stack = top :: rest →
      request_context_from_record record stack = Except.ok top) ∧
    (attachedSnapshot record = none → stack = [] →
      request_context_from_record record stack =
        Except.error { msg := "No request context found on log record" }) := by
  refine ⟨?_, ?_, ?_⟩
  · intro r snap hr hsnap
    subst hr
    simp [request_context_from_record, attachedSnapshot, hsnap]
  · intro top rest hnone hstack
    subst hstack
    simp [request_context_from_record, hnone]
  · intro hnone hstack
    subst hstack
    simp [request_context_from_record, hnone]

/-- Witness for C1: a record with no attached snapshot and an empty ambient
stack raises the typed error. -/
theorem request_context_from_record_resolution_witness :
    request_context_from_record (some recordNoCtx) [] =
      Except.error { msg := "No request context found on log record" } :=
  (request_context_from_record_resolution (some recordNoCtx) []).2.2 rfl rfl

/-- C9: with no attached snapshot and a nonempty stack, the yielded context is
the live top-of-stack object itself; a copy made via ctxCopy with any other
identity is a different object, so the result is not a copy. -/
theorem request_context_from_record_yields_live_top (record : Option Record)
    (top : RequestCtx) (rest : List RequestCtx)
    (h : attachedSnapshot record = none) :
    request_context_from_record record (top :: rest) = Except.ok top ∧
    ∀ freshId, freshId ≠ top.objId → ctxCopy top freshId ≠ top := by
  constructor
  · simp [request_context_from_record, h]
  · intro freshId hne hc
    exact hne (congrArg RequestCtx.objId hc)

/-- Witness for C9: with no record argument and ctx0 on top of the stack, the
function yields ctx0 itself. -/
theorem request_context_from_record_yields_live_top_witness :
    request_context_from_record none [ctx0] = Except.ok ctx0 :=
  (request_context_from_record_yields_live_top none ctx0 [] rfl).1

/-- C2 counterexample: prepare invoked while no request context is active does
not leave the record unmodified; it raises a RuntimeError (the attachment of
copy_current_request_context is unconditional in the source). -/
theorem FlaskQueueHandler_prepare_no_context_raises :
    FlaskQueueHandler_prepare [] 0 recordNoCtx =
      Except.error { msg := "This function can only be used at local scopes when a request context is on the stack. For instance within view functions." } := rfl

/-- C2 amended: prepare applies the base preparation step first, then attaches
a copy of the live top-of-stack context when one is active; when no request
context is active it raises a RuntimeError instead of passing the record
through unmodified. -/
theorem FlaskQueueHandler_prepare_spec (stack : List RequestCtx)
    (freshId : Nat) (record : Record) :
    (∀ top rest, stack = top :: rest →
      FlaskQueueHandler_prepare stack freshId record =
        Except.ok { basePrepare record with
                    request_context := some (ctxCopy top freshId) }) ∧
    (stack = [] →
      FlaskQueueHandler_prepare stack freshId record =
        Except.error { msg := "This function can only be used at local scopes when a request context is on the stack. For instance within view functions." }) := by
  constructor
  · intro top rest hstack
    subst hstack
    rfl
  · intro hstack
    subst hstack
    rfl

/-- Witness for the amended C2: with ctx0 active, prepare returns the record
with the base step applied and a copy of ctx0 attached. -/
theorem FlaskQueueHandler_prepare_spec_witness :
    FlaskQueueHandler_prepare [ctx0] 5 recordNoCtx =
      Except.ok { basePrepare recordNoCtx with
                  request_context := some (ctxCopy ctx0 5) } :=
  (FlaskQueueHandler_prepare_spec [ctx0] 5 recordNoCtx).1 ctx0 [] rfl

/-- milliseconds_between (lines 308 to 312): start and stop are microsecond
timestamps; the difference is decomposed the way Python timedelta normalises
(floor division into days, seconds and microseconds) and recombined into an
exact rational number of milliseconds. -/
def milliseconds_between (start stop : Int) : ℚ :=
  let diff := stop - start
  let days := Int.fdiv diff 86400000000
  let rem := Int.fmod diff 86400000000
  let seconds := Int.fdiv rem 1000000
  let micros := Int.fmod rem 1000000
  (((days * 24 * 60 * 60 + seconds) * 1000 : Int) : ℚ) + (micros : ℚ) / 1000

/-- The logconfig entry of flask.g: start timestamp recorded by
before_request and the memoised execution time. -/
structure GLogconfig where
  start : Option Int
  execution_time : Option ℚ
  deriving DecidableEq

/-- The per-request flask.g storage as used by this extension: the logconfig
key may be absent. -/
structure GState where
  logconfig : Option GLogconfig
  deriving DecidableEq

/-- LogConfig.before_request (lines 196 to 200): stores the start timestamp
of the request under flask.g.logconfig. -/
def before_request (now : Int) : GState :=
  { logconfig := some { start := some now, execution_time := none } }

/-- LogConfig.get_execution_time (lines 262 to 274): reads the start
timestamp from flask.g; when present, computes the elapsed milliseconds once,
stores it in flask.g.logconfig and returns the stored value on every call.
Returns the value together with the updated g state; now is the current
time of this call. -/
def get_execution_time (g : GState) (now : Int) : Option ℚ × GState :=
  match g.logconfig with
  | none => (none, g)
  | some lc =>
    match lc.start with
    | none => (none, g)
    | some start =>
      match lc.execution_time with
      | some et => (some et, g)
      | none =>
        let et := milliseconds_between start now
        (some et, { g with logconfig := some { lc with execution_time := some et } })

/-- C5: the elapsed-time computation is memoised. The first call after a
start timestamp was recorded computes and stores the elapsed milliseconds;
every later call (at any later clock reading) returns exactly the stored
value and leaves the state unchanged. -/
theorem get_execution_time_memoized (g : GState) (lc : GLogconfig)
    (s t1 t2 : Int) (hg : g.logconfig = some lc) (hs : lc.start = some s)
    (he : lc.execution_time = none) :
    (get_execution_time g t1).1 = some (milliseconds_between s t1) ∧
    (get_execution_time (get_execution_time g t1).2 t2).1 =
      (get_execution_time g t1).1 ∧
    (get_execution_time (get_execution_time g t1).2 t2).2 =
      (get_execution_time g t1).2 := by
  simp [get_execution_time, hg, hs, he]

/-- Witness for C5: with a start timestamp of 0 and a first call at 1500
microseconds, the value 1.5 ms is computed once and every later call returns
it unchanged. -/
theorem get_execution_time_memoized_witness :
    (get_execution_time (before_request 0) 1500).1 =
      some (milliseconds_between 0 1500) ∧
    (get_execution_time (get_execution_time (before_request 0) 1500).2 987654).1 =
      (get_execution_time (before_request 0) 1500).1 ∧
    (get_execution_time (get_execution_time (before_request 0) 1500).2 987654).2 =
      (get_execution_time (before_request 0) 1500).2 :=
  get_execution_time_memoized (before_request 0)
    { start := some 0, execution_time := none } 0 1500 987654 rfl rfl rfl

/-- Association-list read with Python dict lookup semantics. -/
def dictGet {α : Type} : List (String × α) → String → Option α
  | [], _ => none
  | (k0, v) :: rest, k => if k0 = k then some v else dictGet rest k

/-- Python dict __getitem__: raises KeyError (modelled as an error carrying
the key) when the key is absent. -/
def dict_getitem (d : List (String × PyVal)) (k : String) :
    Except String PyVal :=
  match dictGet d k with
  | some v => .ok v
  | none => .error k

/-- The defaulting session view built in get_request_message_data (lines 248
to 249): defaultdict(lambda: None) updated with the session contents, so a
missing key resolves to None instead of raising KeyError. -/
def session_view (sess : List (String × PyVal)) (k : String) : PyVal :=
  match dictGet sess k with
  | some v => v
  | none => .noneV

/-- Python dict.update: entries of upd override entries of base. -/
def updatedWith (base : String → Option PyVal)
    (upd : List (String × PyVal)) : String → Option PyVal :=
  fun k =>
    match dictGet upd k with
    | some v => some v
    | none => base k

/-- The execution_time entry of the data mapping: the computed value or
None when timing was never started. -/
def execTimeVal : Option ℚ → PyVal
  | some q => .ratV q
  | none => .noneV

/-- The flat data mapping built by get_request_message_data: scalar entries
(environ, then request attributes, then response attributes, later updates
overriding earlier ones), the defaulting session view, and the computed
execution time as read back from the mapping by after_request. -/
structure MessageData where
  scalars : String → Option PyVal
  session : String → PyVal
  execution_time : Option ℚ

/-- LogConfig.get_request_message_data (lines 224 to 256): merges the WSGI
environ, request attributes, response attributes and the defaulting session
view into one mapping, computing (and memoising into flask.g) the execution
time along the way. Returns the mapping and the updated g state. -/
def get_request_message_data (req : Request) (resp : Response)
    (sess : List (String × PyVal)) (g : GState) (now : Int) :
    MessageData × GState :=
  let environData : String → Option PyVal := fun k => dictGet req.environ k
  let requestData := updatedWith environData
    [("method", .strV req.method), ("path", .strV req.path),
     ("base_url", .strV req.base_url), ("url", .strV req.url),
     ("remote_addr", .strV req.remote_addr),
     ("user_agent", .strV req.user_agent)]
  let et := get_execution_time g now
  let responseData := updatedWith requestData
    [("status_code", .intV resp.status_code), ("status", .strV resp.status),
     ("execution_time", execTimeVal et.1)]
  ({ scalars := responseData, session := session_view sess,
     execution_time := et.1 }, et.2)

/-- Replacement-field resolution of str.format over the data mapping: a plain
field name reads a scalar entry; a subscripted field session[key] reads the
defaulting session view (the only mapping-valued entry a template subscripts
in this extension). An unknown plain field is a KeyError (none). -/
def fieldValue (d : MessageData) (field : List Char) : Option PyVal :=
  let base := field.takeWhile (fun c => c != '[')
  if base.length = field.length then
    d.scalars (String.mk field)
  else
    let idx := (field.drop (base.length + 1)).takeWhile (fun c => c != ']')
    if String.mk base = "session" then some (d.session (String.mk idx))
    else none

/-- Core of Python str.format for the templates this extension renders:
literal characters are copied, a brace-delimited field is resolved through
fieldValue and rendered with str(). none models the exception paths (unknown
field, unterminated field). The second argument accumulates the characters of
the field currently being read, in reverse, and is none outside a field. -/
def renderFormat (d : MessageData) :
    List Char → Option (List Char) → Option String
  | [], none => some ""
  | [], some _ => none
  | c :: rest, none =>
    if c = '{' then renderFormat d rest (some [])
    else (renderFormat d rest none).map (fun s => String.mk [c] ++ s)
  | c :: rest, some acc =>
    if c = '}' then
      match fieldValue d acc.reverse with
      | some v => (renderFormat d rest none).map (fun s => pyToString v ++ s)
      | none => none
    else renderFormat d rest (some (c :: acc))

/-- Python template.format(**data) over the message-data mapping. -/
def pyFormat (fmt : String) (d : MessageData) : Option String :=
  renderFormat d fmt.data none

/-- LogConfig.make_request_message (lines 258 to 260): renders the configured
message format against the data mapping. -/
def make_request_message (fmt : String) (d : MessageData) : Option String :=
  pyFormat fmt d

/-- The default of LOGCONFIG_REQUESTS_MSG_FORMAT set in init_app (line 91). -/
def defaultMsgFormat : String := "{method} {path} - {status_code}"

/-- The request-log call emitted by after_request: the level, the rendered
message, and the structured extras attached to the record. -/
structure RequestLogCall where
  level : Int
  msg : String
  extra_response : Response
  extra_execution_time : Option ℚ
  deriving DecidableEq

/-- LogConfig.after_request (lines 202 to 212): builds the message data,
renders the message, logs it at the configured level with the response and
execution time as extras, and returns the response it received. none models
the template-rendering exception propagating out of the hook. -/
def after_request (level : Int) (fmt : String) (req : Request)
    (resp : Response) (sess : List (String × PyVal)) (g : GState)
    (now : Int) : Option (RequestLogCall × GState × Response) :=
  let dg := get_request_message_data req resp sess g now
  match make_request_message fmt dg.1 with
  | some msg =>
    some ({ level := level, msg := msg, extra_response := resp,
            extra_execution_time := dg.1.execution_time }, dg.2, resp)
  | none => none

/-- Concrete 404 response used in witnesses. -/
def resp404 : Response :=
  { status_code := 404, status := "404 NOT FOUND" }

/-- Concrete g state with no logconfig entry, used in witnesses. -/
def gNone : GState :=
  { logconfig := none }

/-- C6: the session view placed in the request-message data mapping resolves
every key absent from the session to None, where plain dict item access on
the same session raises KeyError; consequently the template reading
session[foo] renders the None placeholder when foo is absent. -/
theorem get_request_message_data_session_defaults (req : Request)
    (resp : Response) (sess : List (String × PyVal)) (g : GState) (now : Int)
    (k : String) (hk : dictGet sess k = none) :
    ((get_request_message_data req resp sess g now).1).session k =
      PyVal.noneV ∧
    dict_getitem sess k = Except.error k ∧
    (dictGet sess "foo" = none →
      pyFormat "{session[foo]}"
        ((get_request_message_data req resp sess g now).1) = some "None") := by
  refine ⟨?_, ?_, ?_⟩
  · simp [get_request_message_data, session_view, hk]
  · simp [dict_getitem, hk]
  · intro hfoo
    simp [pyFormat, get_request_message_data, renderFormat, fieldValue,
          session_view, hfoo, pyToString, String.data]

/-- Witness for C6: the empty session with key foo. -/
theorem get_request_message_data_session_defaults_witness :
    ((get_request_message_data ctx0.request resp404 [] gNone 0).1).session
      "foo" = PyVal.noneV ∧
    dict_getitem [] "foo" = Except.error "foo" ∧
    (dictGet ([] : List (String × PyVal)) "foo" = none →
      pyFormat "{session[foo]}"
        ((get_request_message_data ctx0.request resp404 [] gNone 0).1) =
        some "None") :=
  get_request_message_data_session_defaults ctx0.request resp404 []
    gNone 0 "foo" rfl

/-- C7: for a GET request to /foo answered with status 404, rendering the
default message format against the request-message data mapping yields
exactly the string GET /foo - 404, whatever the timing state. -/
theorem make_request_message_default (g : GState) (now : Int) :
    make_request_message defaultMsgFormat
      (get_request_message_data ctx0.request resp404 [] g now).1 =
      some "GET /foo - 404" := rfl

/-- C8: after_request returns exactly the response object it received; no
field of the response is modified by the hook. -/
theorem after_request_returns_response (level : Int) (fmt : String)
    (req : Request) (resp : Response) (sess : List (String × PyVal))
    (g : GState) (now : Int) (out : RequestLogCall × GState × Response)
    (h : after_request level fmt req resp sess g now = some out) :
    out.2.2 = resp := by
  simp only [after_request] at h
  cases hm : make_request_message fmt
      (get_request_message_data req resp sess g now).1 with
  | none =>
    rw [hm] at h
    simp at h
  | some msg =>
    rw [hm] at h
    simp only [Option.some.injEq] at h
    subst h
    rfl

/-- Concrete log call produced in the C8 witness. -/
def logCall0 : RequestLogCall :=
  { level := 10, msg := "GET", extra_response := resp404,
    extra_execution_time := none }

/-- Witness for C8: a concrete call of the hook returns the concrete
response it was given. -/
theorem after_request_returns_response_witness :
    ((logCall0, gNone, resp404) :
      RequestLogCall × GState × Response).2.2 = resp404 :=
  after_request_returns_response 10 "{method}" ctx0.request
    resp404 [] gNone 0 (logCall0, gNone, resp404) rfl

/-- A handler attached to a logger: either a destination handler from the
logging configuration (named) or a FlaskQueueHandler object. hid models the
identity of the queue-handler object and queue the identity of the queue it
enqueues to. -/
inductive LHandler where
  | dest : String → LHandler
  | queueH : (hid : Nat) → (queue : Nat) → LHandler
  deriving DecidableEq

/-- A logconfig.QueueListener object: lid models its object identity, queue
the identity of the queue it consumes, handlers the destination handlers it
dispatches dequeued records to, started whether its thread was started. -/
structure QListener where
  lid : Nat
  queue : Nat
  handlers : List LHandler
  started : Bool
  deriving DecidableEq

/-- Association-list write with Python dict assignment semantics: an existing
key keeps its position and gets the new value, a new key is appended. -/
def dictSet {α : Type} : List (String × α) → String → α → List (String × α)
  | [], k, v => [(k, v)]
  | (k0, v0) :: rest, k, v =>
    if k0 = k then (k0, v) :: rest else (k0, v0) :: dictSet rest k v

/-- logconfig.queuify_logger of the external logconfig library, modelled from
its documented behaviour: the handlers of the named logger that the listener
does not already hold are appended to the listener, and the logger handlers
are replaced by the single queue handler. Returns the updated logger table
and the updated listener. -/
def queuify_logger (loggers : String → List LHandler) (name : String)
    (qh : LHandler) (listener : QListener) :
    (String → List LHandler) × QListener :=
  let handlers := (loggers name).filter
    (fun h => !(decide (h ∈ listener.handlers)))
  let listener2 :=
    if handlers = [] then listener
    else { listener with handlers := listener.handlers ++ handlers }
  (fun n => if n = name then [qh] else loggers n, listener2)

/-- LogConfig.add_listener (lines 182 to 184): dict assignment of the
listener under the logger name. -/
def add_listener (registry : List (String × QListener)) (name : String)
    (listener : QListener) : List (String × QListener) :=
  dictSet registry name listener

/-- The for loop of LogConfig.setup_queue (lines 146 to 154): for each
configured name, creates a fresh listener and a fresh queue handler (both on
the single queue qid; idx supplies their object identities), queuifies the
named logger and registers the listener under the name. -/
def setup_queue_each (qid : Nat) :
    List String → Nat → (String → List LHandler) →
    List (String × QListener) →
    (String → List LHandler) × List (String × QListener)
  | [], _, loggers, registry => (loggers, registry)
  | name :: rest, idx, loggers, registry =>
    let listener : QListener :=
      { lid := idx, queue := qid, handlers := [], started := false }
    let handler : LHandler := .queueH idx qid
    let step := queuify_logger loggers name handler listener
    setup_queue_each qid rest (idx + 1) step.1
      (add_listener registry name step.2)

/-- LogConfig.start_listeners (lines 186 to 189) applied to the registry:
every registered listener is started. -/
def startListeners (registry : List (String × QListener)) :
    List (String × QListener) :=
  registry.map (fun p => (p.1, { p.2 with started := true }))

/-- LogConfig.setup_queue (lines 136 to 157): creates one queue (identity
qid) for all queued loggers, runs the per-name loop, and starts all
registered listeners when start is set. Returns the final logger table and
the listener registry. -/
def setup_queue (qid : Nat) (start : Bool) (names : List String)
    (loggers : String → List LHandler) :
    (String → List LHandler) × List (String × QListener) :=
  let res := setup_queue_each qid names 0 loggers []
  (res.1, if start then startListeners res.2 else res.2)

/-- The extension state stored under app.extensions during init_app. -/
structure LogconfigState where
  listeners : List (String × QListener)

/-- LogConfig.init_app (lines 79 to 125), restricted to the queue setup it
performs: when LOGCONFIG_QUEUE is nonempty the registry is produced by
setup_queue, otherwise it stays empty. -/
def init_app_state (cfgQueue : List String)
    (loggers : String → List LHandler) (qid : Nat) (start : Bool) :
    LogconfigState :=
  if cfgQueue = [] then { listeners := [] }
  else { listeners := (setup_queue qid start cfgQueue loggers).2 }

/-- LogConfig.get_listeners (lines 178 to 180). -/
def get_listeners (st : LogconfigState) : List (String × QListener) :=
  st.listeners

/-- Index of the last occurrence of a name in a list, counted from the
head. -/
def lastIndexOf (name : String) : List String → Option Nat
  | [] => none
  | n :: rest =>
    match lastIndexOf name rest with
    | some i => some (i + 1)
    | none => if n = name then some 0 else none

theorem dictGet_dictSet_self {α : Type} (reg : List (String × α))
    (k : String) (v : α) : dictGet (dictSet reg k v) k = some v := by
  induction reg with
  | nil => simp [dictSet, dictGet]
  | cons p rest ih =>
    obtain ⟨k0, v0⟩ := p
    by_cases h : k0 = k
    · simp [dictSet, dictGet, h]
    · simp [dictSet, dictGet, h, ih]

theorem dictGet_dictSet_ne {α : Type} (reg : List (String × α))
    (k kq : String) (v : α) (h : kq ≠ k) :
    dictGet (dictSet reg k v) kq = dictGet reg kq := by
  induction reg with
  | nil => simp [dictSet, dictGet, Ne.symm h]
  | cons p rest ih =>
    obtain ⟨k0, v0⟩ := p
    by_cases h0 : k0 = k
    · subst h0
      simp [dictSet, dictGet, Ne.symm h]
    · simp [dictSet, dictGet, h0, ih]

theorem dictGet_eq_none_iff {α : Type} (reg : List (String × α))
    (k : String) : dictGet reg k = none ↔ k ∉ reg.map Prod.fst := by
  induction reg with
  | nil => simp [dictGet]
  | cons p rest ih =>
    obtain ⟨k0, v0⟩ := p
    by_cases h : k0 = k
    · subst h
      simp [dictGet]
    · simp [dictGet, h, ih, Ne.symm h]

theorem keys_dictSet_of_mem {α : Type} (k : String) (v : α) :
    ∀ reg : List (String × α), k ∈ reg.map Prod.fst →
      (dictSet reg k v).map Prod.fst = reg.map Prod.fst := by
  intro reg
  induction reg with
  | nil => intro h; simp at h
  | cons p rest ih =>
    obtain ⟨k0, v0⟩ := p
    intro h
    by_cases h0 : k0 = k
    · simp [dictSet, h0]
    · have hr : k ∈ rest.map Prod.fst := by
        rw [List.map_cons] at h
        rcases List.mem_cons.mp h with he | hm
        · exact absurd he.symm h0
        · exact hm
      simp [dictSet, h0, ih hr]

theorem keys_dictSet_of_not_mem {α : Type} (k : String) (v : α) :
    ∀ reg : List (String × α), k ∉ reg.map Prod.fst →
      (dictSet reg k v).map Prod.fst = reg.map Prod.fst ++ [k] := by
  intro reg
  induction reg with
  | nil => intro h; simp [dictSet]
  | cons p rest ih =>
    obtain ⟨k0, v0⟩ := p
    intro h
    have h0 : k0 ≠ k := by
      intro he
      exact h (by simp [he])
    have hr : k ∉ rest.map Prod.fst := by
      intro hm
      exact h (by simp [hm])
    simp [dictSet, h0, ih hr]

theorem keys_dictSet_toFinset {α : Type} (reg : List (String × α))
    (k : String) (v : α) :
    ((dictSet reg k v).map Prod.fst).toFinset =
      insert k (reg.map Prod.fst).toFinset := by
  by_cases h : k ∈ reg.map Prod.fst
  · rw [keys_dictSet_of_mem k v reg h]
    exact (Finset.insert_eq_self.mpr (List.mem_toFinset.mpr h)).symm
  · rw [keys_dictSet_of_not_mem k v reg h]
    rw [List.toFinset_append, Finset.insert_eq]
    simp [Finset.union_comm]

theorem keys_dictSet_nodup {α : Type} (reg : List (String × α))
    (k : String) (v : α) (h : (reg.map Prod.fst).Nodup) :
    ((dictSet reg k v).map Prod.fst).Nodup := by
  by_cases hm : k ∈ reg.map Prod.fst
  · rw [keys_dictSet_of_mem k v reg hm]
    exact h
  · rw [keys_dictSet_of_not_mem k v reg hm]
    refine List.Nodup.append h (List.nodup_singleton k) ?_
    intro a ha hb
    simp at hb
    subst hb
    exact hm ha

theorem lastIndexOf_cons_none (name n : String) (rest : List String)
    (h : lastIndexOf name (n :: rest) = none) :
    lastIndexOf name rest = none ∧ n ≠ name := by
  cases hr : lastIndexOf name rest with
  | some i => simp [lastIndexOf, hr] at h
  | none =>
    refine ⟨rfl, ?_⟩
    intro he
    subst he
    simp [lastIndexOf, hr] at h

theorem lastIndexOf_cons_some (name n : String) (rest : List String)
    (i : Nat) (h : lastIndexOf name (n :: rest) = some i) :
    (∃ j, lastIndexOf name rest = some j ∧ i = j + 1) ∨
    (lastIndexOf name rest = none ∧ n = name ∧ i = 0) := by
  cases hr : lastIndexOf name rest with
  | some j =>
    left
    refine ⟨j, rfl, ?_⟩
    simp [lastIndexOf, hr] at h
    omega
  | none =>
    right
    by_cases hn : n = name
    · simp [lastIndexOf, hr, hn] at h
      exact ⟨rfl, hn, h.symm⟩
    · simp [lastIndexOf, hr, hn] at h

theorem lastIndexOf_eq_none_of_not_mem (name : String) :
    ∀ l : List String, name ∉ l → lastIndexOf name l = none := by
  intro l
  induction l with
  | nil => intro h; rfl
  | cons n rest ih =>
    intro h
    have h1 : n ≠ name := by
      intro he
      exact h (by simp [he])
    have h2 : name ∉ rest := by
      intro hm
      exact h (by simp [hm])
    simp [lastIndexOf, ih h2, h1]

theorem lastIndexOf_isSome_of_mem (name : String) :
    ∀ l : List String, name ∈ l → ∃ i, lastIndexOf name l = some i := by
  intro l
  induction l with
  | nil => intro h; simp at h
  | cons n rest ih =>
    intro h
    cases hr : lastIndexOf name rest with
    | some j => exact ⟨j + 1, by simp [lastIndexOf, hr]⟩
    | none =>
      have hn : n = name := by
        rcases List.mem_cons.mp h with he | hm
        · exact he.symm
        · obtain ⟨j, hj⟩ := ih hm
          rw [hj] at hr
          cases hr
      exact ⟨0, by simp [lastIndexOf, hr, hn]⟩

theorem queuify_logger_snd_fresh (loggers : String → List LHandler)
    (name : String) (qh : LHandler) (lid q : Nat) (st : Bool) :
    (queuify_logger loggers name qh ⟨lid, q, [], st⟩).2 =
      ⟨lid, q, loggers name, st⟩ := by
  by_cases hn : loggers name = []
  · simp [queuify_logger, hn]
  · simp [queuify_logger, hn]

theorem queuify_logger_fst (loggers : String → List LHandler)
    (name : String) (qh : LHandler) (l : QListener) :
    (queuify_logger loggers name qh l).1 =
      fun n => if n = name then [qh] else loggers n := rfl

theorem setup_each_unfold (qid : Nat) (n : String) (rest : List String)
    (idx : Nat) (loggers : String → List LHandler)
    (reg : List (String × QListener)) :
    setup_queue_each qid (n :: rest) idx loggers reg =
      setup_queue_each qid rest (idx + 1)
        (fun m => if m = n then [LHandler.queueH idx qid] else loggers m)
        (dictSet reg n ⟨idx, qid, loggers n, false⟩) := by
  show setup_queue_each qid rest (idx + 1)
      (queuify_logger loggers n (.queueH idx qid) ⟨idx, qid, [], false⟩).1
      (add_listener reg n
        (queuify_logger loggers n (.queueH idx qid) ⟨idx, qid, [], false⟩).2) =
    _
  rw [queuify_logger_fst, queuify_logger_snd_fresh]
  rfl

theorem setup_each_dictGet_not_mem (qid : Nat) (name : String) :
    ∀ (names : List String) (idx : Nat) (loggers : String → List LHandler)
      (reg : List (String × QListener)),
      lastIndexOf name names = none →
      dictGet (setup_queue_each qid names idx loggers reg).2 name =
        dictGet reg name := by
  intro names
  induction names with
  | nil => intro idx loggers reg h; rfl
  | cons n rest ih =>
    intro idx loggers reg h
    obtain ⟨hr, hn⟩ := lastIndexOf_cons_none name n rest h
    rw [setup_each_unfold, ih _ _ _ hr,
        dictGet_dictSet_ne _ _ _ _ (Ne.symm hn)]

theorem setup_each_dictGet_last (qid : Nat) (name : String) :
    ∀ (names : List String) (i idx : Nat)
      (loggers : String → List LHandler)
      (reg : List (String × QListener)),
      lastIndexOf name names = some i →
      ∃ l, dictGet (setup_queue_each qid names idx loggers reg).2 name =
        some l ∧ l.lid = idx + i ∧ l.queue = qid := by
  intro names
  induction names with
  | nil => intro i idx loggers reg h; simp [lastIndexOf] at h
  | cons n rest ih =>
    intro i idx loggers reg h
    rcases lastIndexOf_cons_some name n rest i h with ⟨j, hj, hi⟩ |
      ⟨hr, hn, hi⟩
    · subst hi
      rw [setup_each_unfold]
      obtain ⟨l, hl, hlid, hq⟩ := ih j (idx + 1) _ _ hj
      exact ⟨l, hl, by omega, hq⟩
    · subst hi
      rw [setup_each_unfold, setup_each_dictGet_not_mem qid name rest _ _ _ hr,
          hn, dictGet_dictSet_self]
      exact ⟨_, rfl, rfl, rfl⟩

theorem setup_each_fst_not_mem (qid : Nat) (m : String) :
    ∀ (names : List String) (idx : Nat) (loggers : String → List LHandler)
      (reg : List (String × QListener)),
      lastIndexOf m names = none →
      (setup_queue_each qid names idx loggers reg).1 m = loggers m := by
  intro names
  induction names with
  | nil => intro idx loggers reg h; rfl
  | cons n rest ih =>
    intro idx loggers reg h
    obtain ⟨hr, hn⟩ := lastIndexOf_cons_none m n rest h
    rw [setup_each_unfold, ih _ _ _ hr]
    simp [Ne.symm hn]

theorem setup_each_fst_last (qid : Nat) (m : String) :
    ∀ (names : List String) (i idx : Nat)
      (loggers : String → List LHandler)
      (reg : List (String × QListener)),
      lastIndexOf m names = some i →
      (setup_queue_each qid names idx loggers reg).1 m =
        [LHandler.queueH (idx + i) qid] := by
  intro names
  induction names with
  | nil => intro i idx loggers reg h; simp [lastIndexOf] at h
  | cons n rest ih =>
    intro i idx loggers reg h
    rcases lastIndexOf_cons_some m n rest i h with ⟨j, hj, hi⟩ |
      ⟨hr, hn, hi⟩
    · subst hi
      rw [setup_each_unfold, ih j (idx + 1) _ _ hj]
      have he : idx + 1 + j = idx + (j + 1) := by omega
      rw [he]
    · subst hi
      rw [setup_each_unfold, setup_each_fst_not_mem qid m rest _ _ _ hr, hn]
      simp

theorem setup_each_dictGet_nodup (qid : Nat) :
    ∀ (names : List String) (idx : Nat) (loggers : String → List LHandler)
      (reg : List (String × QListener)) (name : String),
      names.Nodup → name ∈ names →
      ∃ l, dictGet (setup_queue_each qid names idx loggers reg).2 name =
        some l ∧ l.handlers = loggers name ∧ l.queue = qid := by
  intro names
  induction names with
  | nil => intro idx loggers reg name hnd hm; simp at hm
  | cons n rest ih =>
    intro idx loggers reg name hnd hm
    obtain ⟨hn_notin, hrest_nd⟩ := List.nodup_cons.mp hnd
    rcases List.mem_cons.mp hm with he | hmem
    · subst he
      rw [setup_each_unfold,
          setup_each_dictGet_not_mem qid name rest _ _ _
            (lastIndexOf_eq_none_of_not_mem name rest hn_notin),
          dictGet_dictSet_self]
      exact ⟨_, rfl, rfl, rfl⟩
    · have hne : name ≠ n := by
        intro he
        subst he
        exact hn_notin hmem
      rw [setup_each_unfold]
      obtain ⟨l, hl, hh, hq⟩ := ih (idx + 1) _ _ name hrest_nd hmem
      refine ⟨l, hl, ?_, hq⟩
      rw [hh]
      simp [hne]

theorem setup_each_keys_toFinset (qid : Nat) :
    ∀ (names : List String) (idx : Nat) (loggers : String → List LHandler)
      (reg : List (String × QListener)),
      (((setup_queue_each qid names idx loggers reg).2).map
        Prod.fst).toFinset =
        (reg.map Prod.fst).toFinset ∪ names.toFinset := by
  intro names
  induction names with
  | nil => intro idx loggers reg; simp [setup_queue_each]
  | cons n rest ih =>
    intro idx loggers reg
    rw [setup_each_unfold, ih, keys_dictSet_toFinset]
    rw [List.toFinset_cons, Finset.insert_union, Finset.union_insert]

theorem setup_each_keys_nodup (qid : Nat) :
    ∀ (names : List String) (idx : Nat) (loggers : String → List LHandler)
      (reg : List (String × QListener)),
      (reg.map Prod.fst).Nodup →
      (((setup_queue_each qid names idx loggers reg).2).map
        Prod.fst).Nodup := by
  intro names
  induction names with
  | nil => intro idx loggers reg h; exact h
  | cons n rest ih =>
    intro idx loggers reg h
    rw [setup_each_unfold]
    exact ih _ _ _ (keys_dictSet_nodup _ _ _ h)

theorem setup_each_length (qid : Nat) (names : List String)
    (loggers : String → List LHandler) :
    ((setup_queue_each qid names 0 loggers []).2).length =
      names.dedup.length := by
  have hkn := setup_each_keys_nodup qid names 0 loggers [] (by simp)
  have hkf := setup_each_keys_toFinset qid names 0 loggers []
  rw [← List.length_map (setup_queue_each qid names 0 loggers []).2 Prod.fst,
      ← List.toFinset_card_of_nodup hkn, hkf]
  simp [List.card_toFinset]

theorem dictGet_startListeners (reg : List (String × QListener))
    (k : String) :
    dictGet (startListeners reg) k =
      (dictGet reg k).map (fun l => { l with started := true }) := by
  induction reg with
  | nil => rfl
  | cons p rest ih =>
    obtain ⟨k0, v0⟩ := p
    by_cases h : k0 = k
    · simp [startListeners, dictGet, h]
    · simp only [startListeners, List.map_cons] at ih ⊢
      simp [dictGet, h, ih]

theorem setup_queue_snd_length (qid : Nat) (start : Bool)
    (names : List String) (loggers : String → List LHandler) :
    (setup_queue qid start names loggers).2.length =
      ((setup_queue_each qid names 0 loggers []).2).length := by
  cases start <;> simp [setup_queue, startListeners]

theorem setup_queue_fst_eq (qid : Nat) (start : Bool) (names : List String)
    (loggers : String → List LHandler) :
    (setup_queue qid start names loggers).1 =
      (setup_queue_each qid names 0 loggers []).1 := rfl

theorem setup_queue_dictGet_some (qid : Nat) (start : Bool)
    (names : List String) (loggers : String → List LHandler)
    (name : String) (l : QListener)
    (h : dictGet (setup_queue_each qid names 0 loggers []).2 name = some l) :
    ∃ l2, dictGet (setup_queue qid start names loggers).2 name = some l2 ∧
      l2.lid = l.lid ∧ l2.queue = l.queue ∧ l2.handlers = l.handlers := by
  cases start with
  | false => exact ⟨l, by simpa [setup_queue] using h, rfl, rfl, rfl⟩
  | true =>
    refine ⟨{ l with started := true }, ?_, rfl, rfl, rfl⟩
    simp [setup_queue, dictGet_startListeners, h]

theorem lastIndexOf_get (name : String) :
    ∀ (l : List String) (i : Nat), lastIndexOf name l = some i →
      l.get? i = some name := by
  intro l
  induction l with
  | nil => intro i h; simp [lastIndexOf] at h
  | cons n rest ih =>
    intro i h
    rcases lastIndexOf_cons_some name n rest i h with ⟨j, hj, hi⟩ |
      ⟨hr, hn, hi⟩
    · subst hi
      simpa using ih j hj
    · subst hi
      subst hn
      rfl

theorem lastIndexOf_inj (n1 n2 : String) (names : List String) (i1 i2 : Nat)
    (h1 : lastIndexOf n1 names = some i1)
    (h2 : lastIndexOf n2 names = some i2) (hne : n1 ≠ n2) : i1 ≠ i2 := by
  intro he
  subst he
  have hg1 := lastIndexOf_get n1 names i1 h1
  have hg2 := lastIndexOf_get n2 names i1 h2
  rw [hg1] at hg2
  exact hne (Option.some.inj hg2)

/-- C3 counterexample: with two configured logger names, setup_queue gives
both names a listener consuming the same single queue (identity 7 here), so
the queue is shared between two logger names, refuting the claimed 1:1:1
queue-per-name invariant. -/
theorem setup_queue_shared_queue_cex :
    ((dictGet (setup_queue 7 true ["a", "b"] (fun _ => [])).2 "a").map
      QListener.queue = some 7) ∧
    ((dictGet (setup_queue 7 true ["a", "b"] (fun _ => [])).2 "b").map
      QListener.queue = some 7) ∧
    ("a" : String) ≠ "b" := by
  exact ⟨rfl, rfl, by decide⟩

/-- C3 amended: for any two distinct configured logger names, queue setup
gives each its own listener object and its own queue handler (distinct
identities), while the single queue created once before the loop is shared:
both listeners consume the same queue qid. -/
theorem setup_queue_structure (qid : Nat) (start : Bool)
    (names : List String) (loggers : String → List LHandler) (n1 n2 : String)
    (h1 : n1 ∈ names) (h2 : n2 ∈ names) (hne : n1 ≠ n2) :
    ∃ l1 l2 i1 i2,
      dictGet (setup_queue qid start names loggers).2 n1 = some l1 ∧
      dictGet (setup_queue qid start names loggers).2 n2 = some l2 ∧
      l1.lid ≠ l2.lid ∧
      (setup_queue qid start names loggers).1 n1 =
        [LHandler.queueH i1 qid] ∧
      (setup_queue qid start names loggers).1 n2 =
        [LHandler.queueH i2 qid] ∧
      i1 ≠ i2 ∧
      l1.queue = qid ∧ l2.queue = qid := by
  obtain ⟨j1, hj1⟩ := lastIndexOf_isSome_of_mem n1 names h1
  obtain ⟨j2, hj2⟩ := lastIndexOf_isSome_of_mem n2 names h2
  have hjne : j1 ≠ j2 := lastIndexOf_inj n1 n2 names j1 j2 hj1 hj2 hne
  obtain ⟨m1, hm1, hm1lid, hm1q⟩ :=
    setup_each_dictGet_last qid n1 names j1 0 loggers [] hj1
  obtain ⟨m2, hm2, hm2lid, hm2q⟩ :=
    setup_each_dictGet_last qid n2 names j2 0 loggers [] hj2
  obtain ⟨l1, hl1, hl1lid, hl1q, _⟩ :=
    setup_queue_dictGet_some qid start names loggers n1 m1 hm1
  obtain ⟨l2, hl2, hl2lid, hl2q, _⟩ :=
    setup_queue_dictGet_some qid start names loggers n2 m2 hm2
  refine ⟨l1, l2, 0 + j1, 0 + j2, hl1, hl2, ?_, ?_, ?_, ?_, ?_, ?_⟩
  · rw [hl1lid, hl2lid, hm1lid, hm2lid]
    omega
  · rw [setup_queue_fst_eq]
    exact setup_each_fst_last qid n1 names j1 0 loggers [] hj1
  · rw [setup_queue_fst_eq]
    exact setup_each_fst_last qid n2 names j2 0 loggers [] hj2
  · omega
  · rw [hl1q, hm1q]
  · rw [hl2q, hm2q]

/-- Witness for the amended C3: names a and b, queue identity 7. -/
theorem setup_queue_structure_witness :
    ∃ l1 l2 i1 i2,
      dictGet (setup_queue 7 true ["a", "b"] (fun _ => [])).2 "a" =
        some l1 ∧
      dictGet (setup_queue 7 true ["a", "b"] (fun _ => [])).2 "b" =
        some l2 ∧
      l1.lid ≠ l2.lid ∧
      (setup_queue 7 true ["a", "b"] (fun _ => [])).1 "a" =
        [LHandler.queueH i1 7] ∧
      (setup_queue 7 true ["a", "b"] (fun _ => [])).1 "b" =
        [LHandler.queueH i2 7] ∧
      i1 ≠ i2 ∧
      l1.queue = 7 ∧ l2.queue = 7 :=
  setup_queue_structure 7 true ["a", "b"] (fun _ => []) "a" "b"
    (by simp) (by simp) (by decide)

/-- C4 counterexample: with the duplicated configured name list [a, a]
(N = 2), the registry after initialization has 1 entry, not N. -/
theorem init_app_listener_registry_dup_cex :
    (get_listeners (init_app_state ["a", "a"] (fun _ => []) 0 true)).length
      = 1 ∧
    (["a", "a"] : List String).length = 2 := by
  exact ⟨rfl, rfl⟩

/-- C4 amended: for every sequence of N distinct configured queue logger
names, the registry returned by get_listeners after initialization has
exactly N entries, one keyed by each configured name, and each entry carries
exactly the destination handlers configured for that logger name (and
consumes the single shared queue). -/
theorem init_app_listener_registry (qid : Nat) (start : Bool)
    (names : List String) (loggers : String → List LHandler)
    (hne : names ≠ []) (hnd : names.Nodup) :
    (get_listeners (init_app_state names loggers qid start)).length =
      names.length ∧
    ∀ name ∈ names, ∃ l,
      dictGet (get_listeners (init_app_state names loggers qid start))
        name = some l ∧ l.handlers = loggers name ∧ l.queue = qid := by
  have hreg : get_listeners (init_app_state names loggers qid start) =
      (setup_queue qid start names loggers).2 := by
    simp [get_listeners, init_app_state, hne]
  rw [hreg]
  constructor
  · rw [setup_queue_snd_length, setup_each_length, List.Nodup.dedup hnd]
  · intro name hmem
    obtain ⟨m, hm, hmh, hmq⟩ :=
      setup_each_dictGet_nodup qid names 0 loggers [] name hnd hmem
    obtain ⟨l, hl, _, hlq, hlh⟩ :=
      setup_queue_dictGet_some qid start names loggers name m hm
    refine ⟨l, hl, ?_, ?_⟩
    · rw [hlh, hmh]
    · rw [hlq, hmq]

/-- Witness for the amended C4: two distinct names sharing one configured
destination handler each. -/
theorem init_app_listener_registry_witness :
    (get_listeners (init_app_state ["custom1", "custom2"]
      (fun _ => [.dest "null1"]) 3 true)).length =
      (["custom1", "custom2"] : List String).length ∧
    ∀ name ∈ (["custom1", "custom2"] : List String), ∃ l,
      dictGet (get_listeners (init_app_state ["custom1", "custom2"]
        (fun _ => [.dest "null1"]) 3 true)) name = some l ∧
      l.handlers = [.dest "null1"] ∧ l.queue = 3 :=
  init_app_listener_registry 3 true ["custom1", "custom2"]
    (fun _ => [.dest "null1"]) (by decide) (by decide)

/-- C10: a listener is registered for every occurrence of a configured name,
each registration overwriting the previous one held under that name, so the
registry holds the listener created at the last occurrence (its identity
equals the last-occurrence index) and the registry size is the number of
distinct configured names, not the length of the list. -/
theorem setup_queue_duplicate_overwrite (qid : Nat) (start : Bool)
    (names : List String) (loggers : String → List LHandler)
    (name : String) (h : name ∈ names) :
    (setup_queue qid start names loggers).2.length = names.dedup.length ∧
    ∃ i l, lastIndexOf name names = some i ∧
      dictGet (setup_queue qid start names loggers).2 name = some l ∧
      l.lid = i := by
  constructor
  · rw [setup_queue_snd_length, setup_each_length]
  · obtain ⟨i, hi⟩ := lastIndexOf_isSome_of_mem name names h
    obtain ⟨m, hm, hmlid, _⟩ :=
      setup_each_dictGet_last qid name names i 0 loggers [] hi
    obtain ⟨l, hl, hllid, _, _⟩ :=
      setup_queue_dictGet_some qid start names loggers name m hm
    refine ⟨i, l, hi, hl, ?_⟩
    rw [hllid, hmlid]
    omega

/-- Witness for C10: the duplicated list [a, a] yields a registry of size 1
(the number of distinct names) holding the listener of the second
occurrence. -/
theorem setup_queue_duplicate_overwrite_witness :
    (setup_queue 0 true ["a", "a"] (fun _ => [])).2.length =
      (["a", "a"] : List String).dedup.length ∧
    ∃ i l, lastIndexOf "a" ["a", "a"] = some i ∧
      dictGet (setup_queue 0 true ["a", "a"] (fun _ => [])).2 "a" =
        some l ∧ l.lid = i :=
  setup_queue_duplicate_overwrite 0 true ["a", "a"] (fun _ => []) "a"
    (by simp)

end FlaskLogConfig
